import Mathlib

/-!
Verification of the workforce coverage reconciliation engine
(`src/mcp_server/utils.py` together with the Pydantic shapes of
`src/mcp_server/schemas.py`).

Modelling conventions (shallow embedding):
* Python `str` values are modelled as `List Char`; the helpers below
  (`pyLower`, `pyTitle`, `pyStrip`, `hasSub`, `beforeFirst`, `lastChunk`)
  mirror the CPython semantics of `str.lower`, `str.title`, `str.strip`,
  the `in` operator, `s.split(sep)[0]` and `s.split(sep)[-1]` for the
  ASCII data this engine processes (non-overlapping left-to-right matching
  for `split`).
* Python `datetime.date` is modelled as `Nat` (its proleptic ordinal):
  the engine only ever compares dates for equality and order and renders
  them; `dateIso` stands for `date.isoformat()`.
* Python `dict` is modelled as an association list with insertion-order
  semantics: assigning to an existing key replaces the value in place,
  assigning to a fresh key appends (`dictSet`), matching CPython dicts;
  `dict.values()` is `List.map Prod.snd`.
* Fields never read by the engine (`updated_by`, `timestamp`,
  `generated_at`, which is wall-clock time) are omitted.
-/

def str (s : String) : List Char := s.data

/-- `str.lower` (ASCII fragment, which is all the engine's data uses). -/
def pyLower (l : List Char) : List Char := l.map Char.toLower

/-- Python whitespace stripped by `str.strip()` (ASCII fragment). -/
def isPySpace (c : Char) : Bool :=
  c.toNat = 32 || c.toNat = 9 || c.toNat = 10 || c.toNat = 13 || c.toNat = 11 || c.toNat = 12

/-- `str.strip()`. -/
def pyStrip (l : List Char) : List Char :=
  ((l.dropWhile isPySpace).reverse.dropWhile isPySpace).reverse

/-- Worker for `pyTitle`: the flag records whether the previous character
was alphabetic (a cased character, for ASCII). -/
def titleGo (prevAlpha : Bool) : List Char → List Char
  | [] => []
  | c :: rest =>
    if c.isAlpha then
      (if prevAlpha then c.toLower else c.toUpper) :: titleGo true rest
    else c :: titleGo false rest

/-- `str.title()` (ASCII fragment): uppercase every letter that follows a
non-letter, lowercase every other letter. -/
def pyTitle (l : List Char) : List Char := titleGo false l

/-- Does `l` start with `p`? -/
def startsWithL : List Char → List Char → Bool
  | _, [] => true
  | [], _ :: _ => false
  | c :: cs, d :: ds => c = d && startsWithL cs ds

/-- Python `sep in s` (for non-empty `sep`): some suffix of `s` starts with `sep`. -/
def hasSub : List Char → List Char → Bool
  | [], sep => sep.isEmpty
  | c :: rest, sep => startsWithL (c :: rest) sep || hasSub rest sep

/-- `s.split(sep)[0]` for a non-empty separator: the prefix of `s` before the
first occurrence of `sep`, or `s` itself when `sep` does not occur. -/
def beforeFirst (sep : List Char) : List Char → List Char
  | [] => []
  | c :: rest => if startsWithL (c :: rest) sep then [] else c :: beforeFirst sep rest

/-- Drop through the first occurrence of `sep`, returning the remainder,
or `none` when `sep` does not occur. -/
def dropAfterFirst (sep : List Char) : List Char → Option (List Char)
  | [] => none
  | c :: rest =>
    if startsWithL (c :: rest) sep then some (List.drop sep.length (c :: rest))
    else dropAfterFirst sep rest

/-- Fuelled worker for `lastChunk`; each step consumes at least one character
of the scanned string, so fuel `s.length + 1` is always enough. -/
def lastChunkF (sep : List Char) : Nat → List Char → List Char
  | 0, s => s
  | fuel + 1, s =>
    match dropAfterFirst sep s with
    | some rest => lastChunkF sep fuel rest
    | none => s

/-- `s.split(sep)[-1]` for a non-empty separator: the final segment of the
left-to-right non-overlapping split of `s` on `sep`. -/
def lastChunk (sep s : List Char) : List Char := lastChunkF sep (s.length + 1) s

/-- `CoverageReportStrategy._extract_shift_from_details`. -/
def extract_shift_from_details (details : List Char) : Option (List Char) :=
  let lowered := pyLower details
  if hasSub lowered (str " to ") then
    some (pyTitle (pyStrip (beforeFirst (str ",") (beforeFirst (str " due") (lastChunk (str " to ") lowered)))))
  else if hasSub lowered (str " assigned to ") then
    some (pyTitle (pyStrip (beforeFirst (str ",") (beforeFirst (str " due") (lastChunk (str " assigned to ") lowered)))))
  else if hasSub lowered (str "full day") then some (str "Full Day")
  else none

/-- `CoverageReportStrategy._extract_role_from_details`. Note the
"joined as" branch truncates only at the first comma, not at " due". -/
def extract_role_from_details (details : List Char) : Option (List Char) :=
  let lowered := pyLower details
  if hasSub lowered (str "promoted to") then
    some (pyTitle (pyStrip (beforeFirst (str ",") (beforeFirst (str " due") (lastChunk (str "promoted to") lowered)))))
  else if hasSub lowered (str "joined as") then
    some (pyTitle (pyStrip (beforeFirst (str ",") (lastChunk (str "joined as") lowered))))
  else none

/-- Python `x or default` applied to an `Optional[str]`: both `None` and
the empty string are falsy and select the default. -/
def pyOr (o : Option (List Char)) (d : List Char) : List Char :=
  match o with
  | none => d
  | some s => if s = [] then d else s

/-- `schemas.StaffScheduleEntry`. -/
structure StaffScheduleEntry where
  date : Nat
  employee_id : Int
  name : List Char
  role : List Char
  shift : List Char
  status : List Char
deriving DecidableEq, Repr

/-- `schemas.DateRange`. -/
structure DateRange where
  start_date : Nat
  end_date : Nat
deriving DecidableEq, Repr

/-- `schemas.StaffScheduleSnapshot`. -/
structure StaffScheduleSnapshot where
  date_range : DateRange
  staff_schedule : List StaffScheduleEntry
deriving DecidableEq, Repr

/-- `schemas.StaffUpdate` (the engine never reads `updated_by` or
`timestamp`, so they are omitted). -/
structure StaffUpdate where
  date : Nat
  employee_id : Int
  name : List Char
  update_type : List Char
  details : List Char
deriving DecidableEq, Repr

/-- `schemas.StaffUpdateSnapshot`. -/
structure StaffUpdateSnapshot where
  date_range : DateRange
  staff_updates : List StaffUpdate
deriving DecidableEq, Repr

/-- `schemas.StaffingInsight`. -/
structure StaffingInsight where
  date : Nat
  shift : List Char
  role : List Char
  scheduled : Nat
  available : Nat
  delta : Int
  risk_level : List Char
  recommendation : List Char
deriving DecidableEq, Repr

/-- `schemas.WorkforceCoverageReport`; the metadata dict has the four fixed
keys "filters.date", "filters.role", "filters.shift", "total_insights",
modelled as four fields. `generated_at` (wall-clock) is omitted. -/
structure WorkforceCoverageReport where
  date_range : DateRange
  insights : List StaffingInsight
  metaFilterDate : Option (List Char)
  metaFilterRole : Option (List Char)
  metaFilterShift : Option (List Char)
  metaTotalInsights : List Char
deriving DecidableEq, Repr

/-- CPython dict assignment on an insertion-ordered association list:
replace in place when the key is present, append otherwise. -/
def dictSet {α β : Type} [DecidableEq α] : List (α × β) → α → β → List (α × β)
  | [], k, v => [(k, v)]
  | (k', v') :: rest, k, v =>
    if k' = k then (k, v) :: rest else (k', v') :: dictSet rest k v

/-- CPython `dict.get`. -/
def dictGet {α β : Type} [DecidableEq α] : List (α × β) → α → Option β
  | [], _ => none
  | (k', v) :: rest, k => if k' = k then some v else dictGet rest k

/-- `CoverageReportStrategy._normalize_key`. -/
def normalize_key (e : StaffScheduleEntry) : Nat × Int := (e.date, e.employee_id)

/-- The entry synthesized by the "new hire" branch of
`_apply_staff_updates` (role/shift default through Python `or`, which
also treats an extracted empty string as missing). -/
def newHireEntry (u : StaffUpdate) : StaffScheduleEntry :=
  { date := u.date
    employee_id := u.employee_id
    name := u.name
    role := pyOr (extract_role_from_details u.details) (str "Associate")
    shift := pyOr (extract_shift_from_details u.details) (str "Morning")
    status := str "Active" }

/-- One iteration of the update loop of
`CoverageReportStrategy._apply_staff_updates`. -/
def applyStaffUpdate (m : List ((Nat × Int) × StaffScheduleEntry)) (u : StaffUpdate) :
    List ((Nat × Int) × StaffScheduleEntry) :=
  let key := (u.date, u.employee_id)
  if pyLower u.update_type = str "new hire" then
    dictSet m key (newHireEntry u)
  else
    match dictGet m key with
    | none => m
    | some e =>
      let lowered := pyLower u.update_type
      if hasSub lowered (str "absence") then
        dictSet m key { e with status := str "Unavailable" }
      else if hasSub lowered (str "shift change") then
        match extract_shift_from_details u.details with
        | some sh => if sh = [] then m else dictSet m key { e with shift := sh }
        | none => m
      else if hasSub lowered (str "shift extension") then
        dictSet m key { e with shift := str "Full Day" }
      else if hasSub lowered (str "role change") then
        match extract_role_from_details u.details with
        | some r =>
          if r = [] then dictSet m key { e with status := str "Transferred" }
          else dictSet m key { e with role := r }
        | none => dictSet m key { e with status := str "Transferred" }
      else m

/-- The schedule map built in step 1 of `_apply_staff_updates` (the deep
copy is the identity in this pure model). -/
def buildScheduleMap (entries : List StaffScheduleEntry) :
    List ((Nat × Int) × StaffScheduleEntry) :=
  entries.foldl (fun m e => dictSet m (normalize_key e) e) []

/-- `CoverageReportStrategy._apply_staff_updates`. -/
def apply_staff_updates (s : StaffScheduleSnapshot) (u : StaffUpdateSnapshot) :
    List StaffScheduleEntry :=
  (u.staff_updates.foldl applyStaffUpdate (buildScheduleMap s.staff_schedule)).map Prod.snd

/-- The (date, shift, role) aggregation grain. -/
abbrev CoverageKey : Type := Nat × List Char × List Char

/-- The coverage key of a schedule entry. -/
def entryCoverageKey (e : StaffScheduleEntry) : CoverageKey := (e.date, e.shift, e.role)

/-- `counts[key] = counts.get(key, 0) + 1`. -/
def bumpCount (m : List (CoverageKey × Nat)) (k : CoverageKey) : List (CoverageKey × Nat) :=
  dictSet m k ((dictGet m k).getD 0 + 1)

/-- `CoverageReportStrategy._baseline_counts`. -/
def baseline_counts (entries : List StaffScheduleEntry) : List (CoverageKey × Nat) :=
  entries.foldl (fun m e => bumpCount m (entryCoverageKey e)) []

/-- Membership of a lowered status in `{"unavailable", "transferred"}`. -/
def isUnavailableStatus (st : List Char) : Bool :=
  decide (pyLower st = str "unavailable") || decide (pyLower st = str "transferred")

/-- `CoverageReportStrategy._available_counts`. -/
def available_counts (entries : List StaffScheduleEntry) : List (CoverageKey × Nat) :=
  entries.foldl
    (fun m e => if isUnavailableStatus e.status then m else bumpCount m (entryCoverageKey e)) []

/-- `CoverageReportStrategy._risk_level`. -/
def risk_level_of (delta : Int) : List Char :=
  if 0 ≤ delta then str "stable"
  else if delta ≤ -2 then str "critical"
  else str "monitor"

/-- Decimal rendering of a natural number, as Python `str(...)`. -/
def natChars (n : Nat) : List Char := (Nat.repr n).data

/-- `CoverageReportStrategy._recommendation`. -/
def recommendation_of (delta : Int) (role shiftName : List Char) : List Char :=
  if 0 ≤ delta then str "Adequate coverage available for the requested shift."
  else if delta = -1 then
    str "Consider reallocating staff to cover the " ++ role ++
      str " role during the " ++ shiftName ++ str " shift."
  else
    str "Add at least " ++ natChars delta.natAbs ++ str " additional " ++ role ++
      str " team member(s) for the " ++ shiftName ++ str " shift."

/-- Python string comparison (code-point lexicographic `<`), on char lists. -/
def strLtB : List Char → List Char → Bool
  | [], [] => false
  | [], _ :: _ => true
  | _ :: _, [] => false
  | c :: cs, d :: ds => if c < d then true else if c = d then strLtB cs ds else false

/-- Python tuple comparison `<` on coverage keys: date, then shift, then role. -/
def keyLt (a b : CoverageKey) : Bool :=
  decide (a.1 < b.1) ||
    (decide (a.1 = b.1) &&
      (strLtB a.2.1 b.2.1 || (decide (a.2.1 = b.2.1) && strLtB a.2.2 b.2.2)))

/-- Non-strict version of `keyLt`. -/
def keyLe (a b : CoverageKey) : Bool := keyLt a b || decide (a = b)

/-- Ordered insertion with respect to `keyLe`. -/
def insertKey (k : CoverageKey) : List CoverageKey → List CoverageKey
  | [] => [k]
  | x :: xs => if keyLe k x then k :: x :: xs else x :: insertKey k xs

/-- Insertion sort of coverage keys; on duplicate-free input this is
`sorted(...)` of CPython applied to a set of keys. -/
def sortKeys : List CoverageKey → List CoverageKey
  | [] => []
  | x :: xs => insertKey x (sortKeys xs)

/-- `sorted(set(baseline) | set(available))` from
`CoverageReportStrategy.execute`. -/
def sortedUnionKeys (b a : List (CoverageKey × Nat)) : List CoverageKey :=
  sortKeys ((b.map Prod.fst ++ a.map Prod.fst).dedup)

/-- One `StaffingInsight` of `CoverageReportStrategy.execute`. -/
def mkInsight (b a : List (CoverageKey × Nat)) (k : CoverageKey) : StaffingInsight :=
  let scheduled := (dictGet b k).getD 0
  let availableCount := (dictGet a k).getD 0
  let delta : Int := (availableCount : Int) - (scheduled : Int)
  { date := k.1
    shift := k.2.1
    role := k.2.2
    scheduled := scheduled
    available := availableCount
    delta := delta
    risk_level := risk_level_of delta
    recommendation := recommendation_of delta k.2.2 k.2.1 }

/-- The full insight list computed by `CoverageReportStrategy.execute`
before filtering. -/
def executeInsights (s : StaffScheduleSnapshot) (u : StaffUpdateSnapshot) :
    List StaffingInsight :=
  let b := baseline_counts s.staff_schedule
  let a := available_counts (apply_staff_updates s u)
  (sortedUnionKeys b a).map (mkInsight b a)

/-- `CoverageReportStrategy._filter_insights`; note the Python truthiness
tests: a `None` or empty-string role/shift filter is skipped entirely, and
a date filter (a `date` object) is always truthy when present. -/
def filter_insights (l : List StaffingInsight) (dateF : Option Nat)
    (roleF shiftF : Option (List Char)) : List StaffingInsight :=
  let roleNorm : Option (List Char) :=
    match roleF with
    | some r => if r = [] then none else some (pyLower r)
    | none => none
  let shiftNorm : Option (List Char) :=
    match shiftF with
    | some sh => if sh = [] then none else some (pyLower sh)
    | none => none
  l.filter fun i =>
    (match dateF with
     | some d => decide (i.date = d)
     | none => true) &&
    (match roleNorm with
     | some r => decide (pyLower i.role = r)
     | none => true) &&
    (match shiftNorm with
     | some sh => decide (pyLower i.shift = sh)
     | none => true)

/-- `date.isoformat()`; with dates modelled as ordinals this is their
canonical decimal rendering (injective, as isoformat is on dates). -/
def dateIso (d : Nat) : List Char := natChars d

/-- `selected = filtered_insights or insights` from
`CoverageReportStrategy.execute` (Python `or` on lists: the filtered list
when non-empty, the full list otherwise). -/
def selectedOf (s : StaffScheduleSnapshot) (u : StaffUpdateSnapshot)
    (dateF : Option Nat) (roleF shiftF : Option (List Char)) : List StaffingInsight :=
  if filter_insights (executeInsights s u) dateF roleF shiftF = [] then executeInsights s u
  else filter_insights (executeInsights s u) dateF roleF shiftF

/-- `CoverageReportStrategy.execute`, parameterised by the two loaded
snapshots; `none` models the `LookupError` ("no staffing insights") path. -/
def execute (s : StaffScheduleSnapshot) (u : StaffUpdateSnapshot)
    (dateF : Option Nat) (roleF shiftF : Option (List Char)) :
    Option WorkforceCoverageReport :=
  if selectedOf s u dateF roleF shiftF = [] then none
  else
    some
      { date_range := s.date_range
        insights := selectedOf s u dateF roleF shiftF
        metaFilterDate := dateF.map dateIso
        metaFilterRole := roleF
        metaFilterShift := shiftF
        metaTotalInsights := natChars (selectedOf s u dateF roleF shiftF).length }

theorem dictGet_dictSet_self {α β : Type} [DecidableEq α] (m : List (α × β)) (k : α) (v : β) :
    dictGet (dictSet m k v) k = some v := by
  induction m with
  | nil => simp [dictSet, dictGet]
  | cons p rest ih =>
    obtain ⟨k', v'⟩ := p
    by_cases h : k' = k
    · simp [dictSet, dictGet, h]
    · simp [dictSet, dictGet, h, ih]

theorem dictSet_dictSet_self {α β : Type} [DecidableEq α] (m : List (α × β)) (k : α) (v w : β) :
    dictSet (dictSet m k v) k w = dictSet m k w := by
  induction m with
  | nil => simp [dictSet]
  | cons p rest ih =>
    obtain ⟨k', v'⟩ := p
    by_cases h : k' = k
    · simp [dictSet, h]
    · simp [dictSet, h, ih]

/-- Concrete baseline entry used by several concrete evaluations. -/
def entryAna : StaffScheduleEntry :=
  { date := 1, employee_id := 7, name := str "Ana", role := str "Cashier",
    shift := str "Morning", status := str "Active" }

/-- An update whose type contains "absence" without being equal to it. -/
def updatePlannedAbsence : StaffUpdate :=
  { date := 1, employee_id := 7, name := str "Ana",
    update_type := str "Planned Absence", details := str "" }

/-- C1, counterexample: the update type "Planned Absence" is, case-insensitively,
none of the five vocabulary strings, yet applying it mutates the mapping
(the branch tests are substring tests, not equality tests): the entry's
status becomes "Unavailable". -/
theorem C1_counterexample :
    (pyLower updatePlannedAbsence.update_type ≠ str "new hire" ∧
     pyLower updatePlannedAbsence.update_type ≠ str "absence" ∧
     pyLower updatePlannedAbsence.update_type ≠ str "shift change" ∧
     pyLower updatePlannedAbsence.update_type ≠ str "shift extension" ∧
     pyLower updatePlannedAbsence.update_type ≠ str "role change") ∧
    applyStaffUpdate [((1, 7), entryAna)] updatePlannedAbsence =
      [((1, 7), { entryAna with status := str "Unavailable" })] ∧
    applyStaffUpdate [((1, 7), entryAna)] updatePlannedAbsence ≠ [((1, 7), entryAna)] := by
  decide

/-- C1 (amended): an update record whose lowercased update_type is not equal
to "new hire" and does not contain any of "absence", "shift change",
"shift extension", "role change" as a substring leaves the adjusted entry
mapping unchanged. -/
theorem unrecognized_update_type_noop (m : List ((Nat × Int) × StaffScheduleEntry))
    (u : StaffUpdate)
    (h1 : pyLower u.update_type ≠ str "new hire")
    (h2 : hasSub (pyLower u.update_type) (str "absence") = false)
    (h3 : hasSub (pyLower u.update_type) (str "shift change") = false)
    (h4 : hasSub (pyLower u.update_type) (str "shift extension") = false)
    (h5 : hasSub (pyLower u.update_type) (str "role change") = false) :
    applyStaffUpdate m u = m := by
  unfold applyStaffUpdate
  simp only [if_neg h1]
  cases hget : dictGet m (u.date, u.employee_id) with
  | none => rfl
  | some e => simp [h2, h3, h4, h5]

/-- An update whose type matches none of the recognised branches. -/
def updateVacation : StaffUpdate :=
  { date := 1, employee_id := 7, name := str "Ana",
    update_type := str "Vacation Request", details := str "" }

/-- C1 witness: the amended no-op theorem applied at a concrete map and a
concrete "Vacation Request" update. -/
theorem unrecognized_update_type_noop_witness :
    (pyLower updateVacation.update_type ≠ str "new hire" ∧
     hasSub (pyLower updateVacation.update_type) (str "absence") = false ∧
     hasSub (pyLower updateVacation.update_type) (str "shift change") = false ∧
     hasSub (pyLower updateVacation.update_type) (str "shift extension") = false ∧
     hasSub (pyLower updateVacation.update_type) (str "role change") = false) ∧
    applyStaffUpdate [((1, 7), entryAna)] updateVacation = [((1, 7), entryAna)] :=
  ⟨⟨by decide, by decide, by decide, by decide, by decide⟩,
    unrecognized_update_type_noop [((1, 7), entryAna)] updateVacation
      (by decide) (by decide) (by decide) (by decide) (by decide)⟩

/-- The shift-change example string of the specification. -/
def detailsReassigned : List Char :=
  str "Reassigned from Morning to Evening shift due to staffing needs"

/-- C2, counterexample: on the example string the extracted shift is not
"Evening" but "Staffing Needs": the split on " to " takes the text after the
last occurrence, and " to " also occurs inside "due to". -/
theorem C2_counterexample :
    extract_shift_from_details detailsReassigned ≠ some (str "Evening") ∧
    extract_shift_from_details detailsReassigned = some (str "Staffing Needs") := by
  decide

/-- C2 (amended): shift extraction on the example string returns
"Staffing Needs", the title-cased text after the final non-overlapping
occurrence of " to " (the one inside "due to"), which contains no further
" due" or comma to truncate at. -/
theorem shift_extraction_reassigned_example :
    extract_shift_from_details detailsReassigned = some (str "Staffing Needs") ∧
    lastChunk (str " to ") (pyLower detailsReassigned) = str "staffing needs" := by
  decide

/-- C8: a "new hire" update writes the synthesized entry (status "Active")
at its (date, employee_id) key regardless of what the map held there, and
doing so twice equals doing it once. -/
theorem new_hire_overwrite_idempotent (m : List ((Nat × Int) × StaffScheduleEntry))
    (u : StaffUpdate) (h : pyLower u.update_type = str "new hire") :
    dictGet (applyStaffUpdate m u) (u.date, u.employee_id) = some (newHireEntry u) ∧
    (newHireEntry u).status = str "Active" ∧
    applyStaffUpdate (applyStaffUpdate m u) u = applyStaffUpdate m u := by
  unfold applyStaffUpdate
  simp only [if_pos h]
  exact ⟨dictGet_dictSet_self m _ _, rfl, dictSet_dictSet_self m _ _ _⟩

/-- A concrete "new hire" update. -/
def updateNewHire : StaffUpdate :=
  { date := 1, employee_id := 9, name := str "Bruno",
    update_type := str "New Hire", details := str "Joined as stocker, assigned to Evening shift" }

/-- C8 witness: the overwrite/idempotence theorem at a concrete map that
already holds a different entry at the key. -/
theorem new_hire_overwrite_idempotent_witness :
    pyLower updateNewHire.update_type = str "new hire" ∧
    (dictGet (applyStaffUpdate [((1, 9), entryAna)] updateNewHire) (1, 9) =
        some (newHireEntry updateNewHire) ∧
      (newHireEntry updateNewHire).status = str "Active" ∧
      applyStaffUpdate (applyStaffUpdate [((1, 9), entryAna)] updateNewHire) updateNewHire =
        applyStaffUpdate [((1, 9), entryAna)] updateNewHire) :=
  ⟨by decide, new_hire_overwrite_idempotent [((1, 9), entryAna)] updateNewHire (by decide)⟩

/-- Risk classification exactly as the specification words it: delta ≤ −2 is
critical, delta = −1 is monitor, delta ≥ 0 (the only remaining case) is stable. -/
def specRiskLevel (delta : Int) : List Char :=
  if delta ≤ -2 then str "critical"
  else if delta = -1 then str "monitor"
  else str "stable"

/-- Recommendation templates exactly as the specification words them, keyed
by the same three delta cases, with shortfall = |delta|. -/
def specRecommendation (delta : Int) (role shiftName : List Char) : List Char :=
  if delta ≤ -2 then
    str "Add at least " ++ natChars delta.natAbs ++ str " additional " ++ role ++
      str " team member(s) for the " ++ shiftName ++ str " shift."
  else if delta = -1 then
    str "Consider reallocating staff to cover the " ++ role ++
      str " role during the " ++ shiftName ++ str " shift."
  else str "Adequate coverage available for the requested shift."

/-- C6: risk level and recommendation are pure functions of delta (and the
role/shift names), matching the three specified cases and templates. -/
theorem risk_and_recommendation_pure_of_delta (delta : Int) (role shiftName : List Char) :
    risk_level_of delta = specRiskLevel delta ∧
    recommendation_of delta role shiftName = specRecommendation delta role shiftName := by
  unfold risk_level_of specRiskLevel recommendation_of specRecommendation
  by_cases h0 : 0 ≤ delta
  · have h2 : ¬ delta ≤ -2 := by omega
    have h1 : ¬ delta = -1 := by omega
    simp [h0, h1, h2]
  · by_cases h1 : delta = -1
    · subst h1
      norm_num
    · have h2 : delta ≤ -2 := by omega
      simp [h0, h1, h2]

theorem startsWithL_iff_append (p l : List Char) :
    startsWithL l p = true ↔ ∃ t, l = p ++ t := by
  induction p generalizing l with
  | nil =>
    cases l with
    | nil => simp [startsWithL]
    | cons c cs => simp [startsWithL]
  | cons d ds ih =>
    cases l with
    | nil =>
      simp only [startsWithL]
      constructor
      · intro h
        exact absurd h (by simp)
      · rintro ⟨t, ht⟩
        exact absurd ht (by simp)
    | cons c cs =>
      simp only [startsWithL, Bool.and_eq_true, decide_eq_true_eq, ih, List.cons_append,
        List.cons.injEq]
      constructor
      · rintro ⟨rfl, t, rfl⟩
        exact ⟨t, rfl, rfl⟩
      · rintro ⟨t, rfl, rfl⟩
        exact ⟨rfl, t, rfl⟩

theorem startsWithL_append_right (l p t : List Char) (h : startsWithL l p = true) :
    startsWithL (l ++ t) p = true := by
  rcases (startsWithL_iff_append p l).mp h with ⟨r, rfl⟩
  exact (startsWithL_iff_append p (p ++ r ++ t)).mpr ⟨r ++ t, by simp⟩

theorem hasSub_append_left (a b t : List Char) (h : hasSub a b = true) :
    hasSub (a ++ t) b = true := by
  induction a with
  | nil =>
    simp only [hasSub, List.isEmpty_iff] at h
    subst h
    cases t with
    | nil => simp [hasSub]
    | cons c cs => simp [hasSub, startsWithL]
  | cons c cs ih =>
    simp only [hasSub, Bool.or_eq_true] at h ⊢
    rcases h with h | h
    · exact Or.inl (startsWithL_append_right _ _ _ h)
    · exact Or.inr (ih h)

/-- If `b` occurs in `a` and `a` occurs in `l`, then `b` occurs in `l`. -/
theorem hasSub_trans {l a b : List Char} (hb : hasSub a b = true) (ha : hasSub l a = true) :
    hasSub l b = true := by
  induction l with
  | nil =>
    simp only [hasSub, List.isEmpty_iff] at ha
    subst ha
    exact hb
  | cons c cs ih =>
    have ha' : startsWithL (c :: cs) a = true ∨ hasSub cs a = true := by
      simpa [hasSub] using ha
    rcases ha' with h | h
    · rcases (startsWithL_iff_append a (c :: cs)).mp h with ⟨t, ht⟩
      rw [ht]
      exact hasSub_append_left a b t hb
    · have hcs := ih h
      simp [hasSub, hcs]

/-- The string " assigned to " itself contains " to ", so any string
containing the former contains the latter. -/
theorem hasSub_to_of_assigned_to {l : List Char}
    (h : hasSub l (str " assigned to ") = true) : hasSub l (str " to ") = true :=
  hasSub_trans (by decide) h

/-- Shift extraction with the " assigned to " branch deleted: only the
" to " marker, then the "full day" fallback. -/
def extract_shift_single_marker (details : List Char) : Option (List Char) :=
  let lowered := pyLower details
  if hasSub lowered (str " to ") then
    some (pyTitle (pyStrip (beforeFirst (str ",") (beforeFirst (str " due") (lastChunk (str " to ") lowered)))))
  else if hasSub lowered (str "full day") then some (str "Full Day")
  else none

/-- C10 (amended): the " assigned to " branch of shift extraction is
unreachable, so the function equals its single-marker simplification; the
extracted fragment is the final segment of the left-to-right
non-overlapping split on " to " (not always the text after the rightmost
occurrence, which differs when occurrences overlap). -/
theorem shift_extraction_single_marker_eq (details : List Char) :
    extract_shift_from_details details = extract_shift_single_marker details := by
  unfold extract_shift_from_details extract_shift_single_marker
  by_cases h : hasSub (pyLower details) (str " to ") = true
  · simp [h]
  · have ha : hasSub (pyLower details) (str " assigned to ") = false := by
      cases hx : hasSub (pyLower details) (str " assigned to ") with
      | false => rfl
      | true => exact absurd (hasSub_to_of_assigned_to hx) h
    simp [h, ha]

/-- The suffix of `s` after the rightmost occurrence of `sep` (the claim's
reading of "text after the LAST occurrence"); empty when `sep` is absent. -/
def afterLastOcc (sep : List Char) : List Char → List Char
  | [] => []
  | c :: rest =>
    if hasSub rest sep then afterLastOcc sep rest
    else if startsWithL (c :: rest) sep then List.drop sep.length (c :: rest)
    else afterLastOcc sep rest

/-- Shift extraction as the claim describes it: the fragment is the text
after the rightmost occurrence of " to ". -/
def extract_shift_last_occurrence (details : List Char) : Option (List Char) :=
  let lowered := pyLower details
  if hasSub lowered (str " to ") then
    some (pyTitle (pyStrip (beforeFirst (str ",") (beforeFirst (str " due") (afterLastOcc (str " to ") lowered)))))
  else if hasSub lowered (str "full day") then some (str "Full Day")
  else none

/-- C10 counterexample: in "switched to to x" the two occurrences of " to "
overlap on the shared space. The non-overlapping split the code performs
yields fragment "to x" (title-cased "To X"), while the text after the
rightmost occurrence is "x", so the claimed simplified function disagrees
with the code. -/
theorem C10_counterexample :
    extract_shift_from_details (str "switched to to x") = some (str "To X") ∧
    extract_shift_last_occurrence (str "switched to to x") = some (str "X") ∧
    extract_shift_from_details (str "switched to to x") ≠
      extract_shift_last_occurrence (str "switched to to x") := by
  decide

/-- C5 (amended): in new-hire shift resolution the marker branches run
first. When no " to " marker matches (so no " assigned to " either, since
the latter contains the former), the presence of "full day" anywhere in the
lower-cased details yields shift "Full Day" and its absence yields the
default "Morning". -/
theorem new_hire_full_day_default (m : List ((Nat × Int) × StaffScheduleEntry))
    (u : StaffUpdate)
    (hty : pyLower u.update_type = str "new hire")
    (hto : hasSub (pyLower u.details) (str " to ") = false) :
    dictGet (applyStaffUpdate m u) (u.date, u.employee_id) =
      some
        { date := u.date, employee_id := u.employee_id, name := u.name,
          role := pyOr (extract_role_from_details u.details) (str "Associate"),
          shift :=
            if hasSub (pyLower u.details) (str "full day") then str "Full Day"
            else str "Morning",
          status := str "Active" } := by
  have ha : hasSub (pyLower u.details) (str " assigned to ") = false := by
    cases hx : hasSub (pyLower u.details) (str " assigned to ") with
    | false => rfl
    | true => simp [hasSub_to_of_assigned_to hx] at hto
  have hsh : extract_shift_from_details u.details =
      if hasSub (pyLower u.details) (str "full day") then some (str "Full Day") else none := by
    unfold extract_shift_from_details
    simp [hto, ha]
  unfold applyStaffUpdate
  simp only [if_pos hty]
  rw [dictGet_dictSet_self]
  unfold newHireEntry
  rw [hsh]
  by_cases hfd : hasSub (pyLower u.details) (str "full day") = true
  · simp [hfd, pyOr]
    intro h
    exact absurd h (by decide)
  · simp [hfd, pyOr]

/-- A new-hire update with no " to " marker but "full day" in the details. -/
def updateWorksFullDay : StaffUpdate :=
  { date := 2, employee_id := 11, name := str "Caio",
    update_type := str "New Hire", details := str "Works full day shifts" }

/-- C5 witness: the amended rule at a concrete marker-free update whose
details mention "full day". -/
theorem new_hire_full_day_default_witness :
    (pyLower updateWorksFullDay.update_type = str "new hire" ∧
     hasSub (pyLower updateWorksFullDay.details) (str " to ") = false) ∧
    dictGet (applyStaffUpdate [] updateWorksFullDay)
        (updateWorksFullDay.date, updateWorksFullDay.employee_id) =
      some
        { date := updateWorksFullDay.date, employee_id := updateWorksFullDay.employee_id,
          name := updateWorksFullDay.name,
          role := pyOr (extract_role_from_details updateWorksFullDay.details) (str "Associate"),
          shift :=
            if hasSub (pyLower updateWorksFullDay.details) (str "full day") then str "Full Day"
            else str "Morning",
          status := str "Active" } :=
  ⟨⟨by decide, by decide⟩,
    new_hire_full_day_default [] updateWorksFullDay (by decide) (by decide)⟩

/-- A new-hire update whose details contain both an " to " marker and the
phrase "full day". -/
def updateAssignedFullDay : StaffUpdate :=
  { date := 2, employee_id := 12, name := str "Dora",
    update_type := str "new hire", details := str "Assigned to full day coverage" }

/-- C5 counterexample: "full day" appears in the details, yet the resolved
shift is "Full Day Coverage", not "Full Day" — the " to " marker branch
takes precedence over the "full day" check. -/
theorem C5_counterexample :
    hasSub (pyLower updateAssignedFullDay.details) (str "full day") = true ∧
    dictGet (applyStaffUpdate [] updateAssignedFullDay) (2, 12) =
      some (newHireEntry updateAssignedFullDay) ∧
    (newHireEntry updateAssignedFullDay).shift = str "Full Day Coverage" ∧
    (newHireEntry updateAssignedFullDay).shift ≠ str "Full Day" := by
  decide

/-- Index of the first occurrence of `sep` in `s` (`s.length` when absent). -/
def firstIdx (sep s : List Char) : Nat := (beforeFirst sep s).length

theorem prefix_beforeFirst (sep s : List Char) : beforeFirst sep s <+: s := by
  induction s with
  | nil => simp [beforeFirst]
  | cons c rest ih =>
    by_cases h : startsWithL (c :: rest) sep = true
    · simp [beforeFirst, h]
    · simp only [beforeFirst, if_neg h]
      exact List.cons_prefix_cons.mpr ⟨rfl, ih⟩

theorem beforeFirst_eq_take (sep s : List Char) :
    beforeFirst sep s = List.take (firstIdx sep s) s := by
  unfold firstIdx
  exact List.prefix_iff_eq_take.mp (prefix_beforeFirst sep s)

/-- Truncating at the first occurrence of a single-character separator after
truncating at the first occurrence of `b` is truncation at whichever of the
two first occurrences comes first (a one-character occurrence cannot
straddle the first cut). -/
theorem beforeFirst_single_after (ch : Char) (b s : List Char) :
    beforeFirst [ch] (beforeFirst b s) =
      List.take (min (firstIdx b s) (firstIdx [ch] s)) s := by
  induction s with
  | nil => simp [beforeFirst, firstIdx]
  | cons c rest ih =>
    by_cases hb : startsWithL (c :: rest) b = true
    · simp [beforeFirst, firstIdx, hb]
    · by_cases hc : c = ch
      · subst hc
        have hsx : ∀ t : List Char, startsWithL (c :: t) [c] = true := by
          intro t
          simp [startsWithL]
        simp only [beforeFirst, if_neg hb, hsx, if_true, firstIdx]
        simp
      · have h1 : startsWithL (c :: beforeFirst b rest) [ch] = false := by
          simp [startsWithL, hc]
        simp only [beforeFirst, if_neg hb, h1, Bool.false_eq_true, if_false, firstIdx,
          List.length_cons]
        have h2 : startsWithL (c :: rest) [ch] = false := by
          simp [startsWithL, hc]
        simp only [h2, Bool.false_eq_true, if_false, List.length_cons]
        rw [ih]
        simp only [firstIdx, Nat.succ_min_succ, List.take_succ_cons]

/-- Truncation at the first comma and at the first " due", whichever comes
first, as the claim words it. -/
def minTruncate (s : List Char) : List Char :=
  List.take (min (firstIdx (str " due") s) (firstIdx (str ",") s)) s

/-- Shift extraction restated with the whichever-comes-first truncation. -/
def extract_shift_spec_trunc (details : List Char) : Option (List Char) :=
  let lowered := pyLower details
  if hasSub lowered (str " to ") then
    some (pyTitle (pyStrip (minTruncate (lastChunk (str " to ") lowered))))
  else if hasSub lowered (str " assigned to ") then
    some (pyTitle (pyStrip (minTruncate (lastChunk (str " assigned to ") lowered))))
  else if hasSub lowered (str "full day") then some (str "Full Day")
  else none

/-- Role extraction restated with the whichever-comes-first truncation on
the "promoted to" branch and comma-only truncation on the "joined as"
branch. -/
def extract_role_spec_trunc (details : List Char) : Option (List Char) :=
  let lowered := pyLower details
  if hasSub lowered (str "promoted to") then
    some (pyTitle (pyStrip (minTruncate (lastChunk (str "promoted to") lowered))))
  else if hasSub lowered (str "joined as") then
    some (pyTitle (pyStrip
      (List.take (firstIdx (str ",") (lastChunk (str "joined as") lowered))
        (lastChunk (str "joined as") lowered))))
  else none

theorem str_comma_eq : str "," = [','] := by decide

/-- C4 (amended): every extracted fragment is computed from the lower-cased
details and returned title-cased; shift extraction and the "promoted to"
role branch truncate the fragment at the first comma and the first " due",
whichever comes first, while the "joined as" role branch truncates only at
the first comma. -/
theorem extraction_truncation_rule (details : List Char) :
    extract_shift_from_details details = extract_shift_spec_trunc details ∧
    extract_role_from_details details = extract_role_spec_trunc details := by
  have hco : ∀ b s : List Char,
      beforeFirst (str ",") (beforeFirst b s) =
        List.take (min (firstIdx b s) (firstIdx (str ",") s)) s := by
    intro b s
    rw [str_comma_eq]
    rw [beforeFirst_single_after ',' b s]
  constructor
  · unfold extract_shift_from_details extract_shift_spec_trunc minTruncate
    simp only [hco]
  · unfold extract_role_from_details extract_role_spec_trunc minTruncate
    simp only [hco]
    simp only [beforeFirst_eq_take]

/-- The "joined as ... due ..." example. -/
def detailsJoinedAs : List Char := str "Joined as cashier due to expansion"

/-- C4 counterexample: on a "joined as" fragment containing " due" the code
does not truncate at " due" — it returns "Cashier Due To Expansion", while
the claimed whichever-comes-first truncation would give "Cashier". -/
theorem C4_counterexample :
    extract_role_from_details detailsJoinedAs = some (str "Cashier Due To Expansion") ∧
    extract_role_from_details detailsJoinedAs ≠ some (str "Cashier") ∧
    pyTitle (pyStrip (minTruncate (lastChunk (str "joined as") (pyLower detailsJoinedAs)))) =
      str "Cashier" := by
  decide

theorem dictSet_fresh {α β : Type} [DecidableEq α] (m : List (α × β)) (k : α) (v : β)
    (h : k ∉ m.map Prod.fst) : dictSet m k v = m ++ [(k, v)] := by
  induction m with
  | nil => rfl
  | cons p rest ih =>
    obtain ⟨k', v'⟩ := p
    simp only [List.map_cons, List.mem_cons, not_or] at h
    simp only [dictSet, if_neg (Ne.symm h.1), List.cons_append, List.cons.injEq, true_and]
    exact ih h.2

theorem buildMap_from (entries : List StaffScheduleEntry)
    (m : List ((Nat × Int) × StaffScheduleEntry))
    (hnd : (entries.map normalize_key).Nodup)
    (hdisj : ∀ e ∈ entries, normalize_key e ∉ m.map Prod.fst) :
    entries.foldl (fun m e => dictSet m (normalize_key e) e) m =
      m ++ entries.map (fun e => (normalize_key e, e)) := by
  induction entries generalizing m with
  | nil => simp
  | cons e rest ih =>
    simp only [List.foldl_cons, List.map_cons]
    rw [dictSet_fresh m _ e (hdisj e (List.mem_cons_self e rest))]
    simp only [List.map_cons, List.nodup_cons] at hnd
    rw [ih (m ++ [(normalize_key e, e)]) hnd.2]
    · simp
    · intro e' he'
      simp only [List.map_append, List.mem_append, List.map_cons, List.map_nil,
        List.mem_singleton, not_or]
      constructor
      · exact hdisj e' (List.mem_cons_of_mem e he')
      · intro hk
        exact hnd.1 (hk ▸ List.mem_map_of_mem normalize_key he')

/-- With pairwise-distinct (date, employee_id) keys — the snapshot
invariant — the schedule map lists each entry once, in order. -/
theorem buildScheduleMap_eq (entries : List StaffScheduleEntry)
    (hnd : (entries.map normalize_key).Nodup) :
    buildScheduleMap entries = entries.map (fun e => (normalize_key e, e)) := by
  unfold buildScheduleMap
  simpa using buildMap_from entries [] hnd (by simp)

/-- Applying an empty update snapshot returns the baseline entries. -/
theorem apply_staff_updates_nil (s : StaffScheduleSnapshot) (u : StaffUpdateSnapshot)
    (hu : u.staff_updates = [])
    (hnd : (s.staff_schedule.map normalize_key).Nodup) :
    apply_staff_updates s u = s.staff_schedule := by
  unfold apply_staff_updates
  rw [hu, buildScheduleMap_eq s.staff_schedule hnd]
  simp only [List.foldl_nil, List.map_map]
  have hcomp : (Prod.snd ∘ fun e : StaffScheduleEntry => (normalize_key e, e)) = id := rfl
  rw [hcomp, List.map_id]

theorem available_counts_eq_baseline (l : List StaffScheduleEntry)
    (h : ∀ e ∈ l, isUnavailableStatus e.status = false) :
    available_counts l = baseline_counts l := by
  unfold available_counts baseline_counts
  have key : ∀ (l' : List StaffScheduleEntry),
      (∀ e ∈ l', isUnavailableStatus e.status = false) →
      ∀ init : List (CoverageKey × Nat),
        l'.foldl
            (fun m e =>
              if isUnavailableStatus e.status then m else bumpCount m (entryCoverageKey e))
            init =
          l'.foldl (fun m e => bumpCount m (entryCoverageKey e)) init := by
    intro l'
    induction l' with
    | nil => intro _ _; rfl
    | cons e rest ih =>
      intro h init
      simp only [List.foldl_cons, h e (List.mem_cons_self e rest), Bool.false_eq_true, if_false]
      exact ih (fun x hx => h x (List.mem_cons_of_mem e hx)) _
  exact key l h []

/-- Boolean check that every insight has delta 0 and risk "stable". -/
def insightsAllStable (l : List StaffingInsight) : Bool :=
  l.all fun i => decide (i.delta = 0) && decide (i.risk_level = str "stable")

/-- C3 (amended): for a ScheduleSnapshot whose entries have pairwise-distinct
(date, employee_id) keys (the snapshot invariant) and whose statuses are all
available (lowercased status neither "unavailable" nor "transferred"),
applying an empty UpdateSnapshot and aggregating yields available counts
identical to baseline counts, so every generated insight has delta 0 and
risk stable. -/
theorem empty_updates_all_stable (s : StaffScheduleSnapshot) (u : StaffUpdateSnapshot)
    (hu : u.staff_updates = [])
    (hnd : (s.staff_schedule.map normalize_key).Nodup)
    (hav : ∀ e ∈ s.staff_schedule, isUnavailableStatus e.status = false) :
    available_counts (apply_staff_updates s u) = baseline_counts s.staff_schedule ∧
    insightsAllStable (executeInsights s u) = true := by
  have hcnt : available_counts (apply_staff_updates s u) = baseline_counts s.staff_schedule := by
    rw [apply_staff_updates_nil s u hu hnd]
    exact available_counts_eq_baseline _ hav
  refine ⟨hcnt, ?_⟩
  unfold insightsAllStable executeInsights
  simp only [hcnt]
  apply List.all_eq_true.mpr
  intro i hi
  rcases List.mem_map.mp hi with ⟨k, _, rfl⟩
  simp [mkInsight, risk_level_of]

/-- A one-entry snapshot with an Active employee. -/
def scheduleOneActive : StaffScheduleSnapshot :=
  { date_range := { start_date := 1, end_date := 1 }, staff_schedule := [entryAna] }

/-- The empty update snapshot. -/
def emptyUpdates : StaffUpdateSnapshot :=
  { date_range := { start_date := 1, end_date := 1 }, staff_updates := [] }

/-- C3 witness: the amended theorem at a one-entry Active snapshot and the
empty update snapshot. -/
theorem empty_updates_all_stable_witness :
    (emptyUpdates.staff_updates = [] ∧
     (scheduleOneActive.staff_schedule.map normalize_key).Nodup ∧
     ∀ e ∈ scheduleOneActive.staff_schedule, isUnavailableStatus e.status = false) ∧
    (available_counts (apply_staff_updates scheduleOneActive emptyUpdates) =
        baseline_counts scheduleOneActive.staff_schedule ∧
      insightsAllStable (executeInsights scheduleOneActive emptyUpdates) = true) :=
  ⟨⟨by decide, by decide, by decide⟩,
    empty_updates_all_stable scheduleOneActive emptyUpdates (by decide) (by decide) (by decide)⟩

/-- A baseline entry that is already Unavailable. -/
def entryUnavailable : StaffScheduleEntry :=
  { date := 1, employee_id := 7, name := str "Ana", role := str "Cashier",
    shift := str "Morning", status := str "Unavailable" }

/-- A one-entry snapshot whose single employee is Unavailable. -/
def scheduleOneUnavailable : StaffScheduleSnapshot :=
  { date_range := { start_date := 1, end_date := 1 }, staff_schedule := [entryUnavailable] }

/-- C3 counterexample: merging the empty update snapshot onto a snapshot
whose one entry is already Unavailable yields an insight with delta −1 and
risk "monitor", not delta 0 and risk stable — baseline counts include the
entry while available counts exclude it. -/
theorem C3_counterexample :
    (executeInsights scheduleOneUnavailable emptyUpdates).map
        (fun i => (i.delta, i.risk_level)) =
      [(-1, str "monitor")] := by
  decide

/-- Filtering as the claim words it: an insight matches when it satisfies
every supplied filter, role and shift compared case-insensitively. -/
def specFilterInsights (l : List StaffingInsight) (dateF : Option Nat)
    (roleF shiftF : Option (List Char)) : List StaffingInsight :=
  l.filter fun i =>
    (match dateF with
     | some d => decide (i.date = d)
     | none => true) &&
    (match roleF with
     | some r => decide (pyLower i.role = pyLower r)
     | none => true) &&
    (match shiftF with
     | some sh => decide (pyLower i.shift = pyLower sh)
     | none => true)

/-- When neither string filter is the (falsy) empty string, the code's
filter agrees with the claim's all-supplied-filters reading. -/
theorem filter_insights_eq_spec (l : List StaffingInsight) (dateF : Option Nat)
    (roleF shiftF : Option (List Char)) (hr : roleF ≠ some []) (hs : shiftF ≠ some []) :
    filter_insights l dateF roleF shiftF = specFilterInsights l dateF roleF shiftF := by
  unfold filter_insights specFilterInsights
  cases roleF with
  | none =>
    cases shiftF with
    | none => rfl
    | some sh =>
      have hsh : ¬ sh = [] := fun h => hs (by rw [h])
      simp [hsh]
  | some r =>
    have hrr : ¬ r = [] := fun h => hr (by rw [h])
    cases shiftF with
    | none => simp [hrr]
    | some sh =>
      have hsh : ¬ sh = [] := fun h => hs (by rw [h])
      simp [hrr, hsh]

theorem filter_insights_nil (dateF : Option Nat) (roleF shiftF : Option (List Char)) :
    filter_insights [] dateF roleF shiftF = [] := rfl

theorem selectedOf_eq_nil (s : StaffScheduleSnapshot) (u : StaffUpdateSnapshot)
    (dateF : Option Nat) (roleF shiftF : Option (List Char)) :
    selectedOf s u dateF roleF shiftF = [] ↔ executeInsights s u = [] := by
  unfold selectedOf
  by_cases hF : filter_insights (executeInsights s u) dateF roleF shiftF = []
  · simp [hF]
  · rw [if_neg hF]
    constructor
    · intro h
      exact absurd h hF
    · intro h
      rw [h, filter_insights_nil] at hF
      exact absurd rfl hF

/-- C7 (amended): provided neither string filter is the empty string (an
empty-string role/shift filter is falsy in Python and silently ignored),
the report is `none` (NotFound) exactly when the overall insight list is
empty; otherwise the returned report carries the filtered subset per the
claim's all-supplied-filters semantics, falling back to the entire
unfiltered list when that subset is empty, and its metadata echoes the
requested filter values and the returned insight count. -/
theorem coverage_filter_fallback (s : StaffScheduleSnapshot) (u : StaffUpdateSnapshot)
    (dateF : Option Nat) (roleF shiftF : Option (List Char))
    (hr : roleF ≠ some []) (hs : shiftF ≠ some []) :
    (execute s u dateF roleF shiftF = none ↔ executeInsights s u = []) ∧
    (executeInsights s u ≠ [] →
      execute s u dateF roleF shiftF =
        some
          { date_range := s.date_range
            insights :=
              if specFilterInsights (executeInsights s u) dateF roleF shiftF = [] then
                executeInsights s u
              else specFilterInsights (executeInsights s u) dateF roleF shiftF
            metaFilterDate := dateF.map dateIso
            metaFilterRole := roleF
            metaFilterShift := shiftF
            metaTotalInsights :=
              natChars
                (if specFilterInsights (executeInsights s u) dateF roleF shiftF = [] then
                    executeInsights s u
                  else specFilterInsights (executeInsights s u) dateF roleF shiftF).length }) := by
  have hfe : filter_insights (executeInsights s u) dateF roleF shiftF =
      specFilterInsights (executeInsights s u) dateF roleF shiftF :=
    filter_insights_eq_spec _ _ _ _ hr hs
  have hsel : selectedOf s u dateF roleF shiftF =
      if specFilterInsights (executeInsights s u) dateF roleF shiftF = [] then
        executeInsights s u
      else specFilterInsights (executeInsights s u) dateF roleF shiftF := by
    unfold selectedOf
    rw [hfe]
  constructor
  · unfold execute
    by_cases h : selectedOf s u dateF roleF shiftF = []
    · rw [if_pos h]
      exact iff_of_true rfl ((selectedOf_eq_nil s u dateF roleF shiftF).mp h)
    · rw [if_neg h]
      exact iff_of_false (by simp)
        (fun hI => h ((selectedOf_eq_nil s u dateF roleF shiftF).mpr hI))
  · intro hI
    have h : selectedOf s u dateF roleF shiftF ≠ [] :=
      fun h => hI ((selectedOf_eq_nil s u dateF roleF shiftF).mp h)
    unfold execute
    rw [if_neg h, hsel]

/-- A second Active entry on the same date with a different shift/role. -/
def entryBruno : StaffScheduleEntry :=
  { date := 1, employee_id := 8, name := str "Bruno", role := str "Stocker",
    shift := str "Evening", status := str "Active" }

/-- A two-entry snapshot used to exercise the filter layer. -/
def scheduleTwo : StaffScheduleSnapshot :=
  { date_range := { start_date := 1, end_date := 1 },
    staff_schedule := [entryAna, entryBruno] }

/-- C7 counterexample: with role filter "" and shift filter "morning" the
subset matching all supplied filters is empty (no insight has an empty
role), so the claim requires the full 2-insight list; but the code ignores
the falsy empty-string role filter and returns only the 1 insight matching
"morning". -/
theorem C7_counterexample :
    specFilterInsights (executeInsights scheduleTwo emptyUpdates) none (some [])
        (some (str "morning")) = [] ∧
    (executeInsights scheduleTwo emptyUpdates).length = 2 ∧
    (execute scheduleTwo emptyUpdates none (some []) (some (str "morning"))).map
        (fun r => r.insights.length) =
      some 1 := by
  decide

/-- C7 witness: the amended theorem at the two-entry snapshot with a role
filter ("stocker", case-insensitive) that matches exactly one insight. -/
theorem coverage_filter_fallback_witness :
    ((some (str "Stocker") : Option (List Char)) ≠ some [] ∧
     (none : Option (List Char)) ≠ some []) ∧
    ((execute scheduleTwo emptyUpdates none (some (str "Stocker")) none = none ↔
        executeInsights scheduleTwo emptyUpdates = []) ∧
      (executeInsights scheduleTwo emptyUpdates ≠ [] →
        execute scheduleTwo emptyUpdates none (some (str "Stocker")) none =
          some
            { date_range := scheduleTwo.date_range
              insights :=
                if specFilterInsights (executeInsights scheduleTwo emptyUpdates) none
                    (some (str "Stocker")) none = [] then
                  executeInsights scheduleTwo emptyUpdates
                else
                  specFilterInsights (executeInsights scheduleTwo emptyUpdates) none
                    (some (str "Stocker")) none
              metaFilterDate := (none : Option Nat).map dateIso
              metaFilterRole := some (str "Stocker")
              metaFilterShift := none
              metaTotalInsights :=
                natChars
                  (if specFilterInsights (executeInsights scheduleTwo emptyUpdates) none
                      (some (str "Stocker")) none = [] then
                      executeInsights scheduleTwo emptyUpdates
                    else
                      specFilterInsights (executeInsights scheduleTwo emptyUpdates) none
                        (some (str "Stocker")) none).length })) :=
  ⟨⟨by decide, by decide⟩,
    coverage_filter_fallback scheduleTwo emptyUpdates none (some (str "Stocker")) none
      (by decide) (by decide)⟩

theorem strLtB_cons_iff {x y : Char} {xs ys : List Char} :
    strLtB (x :: xs) (y :: ys) = true ↔ x < y ∨ (x = y ∧ strLtB xs ys = true) := by
  simp only [strLtB]
  by_cases h1 : x < y
  · simp [h1]
  · by_cases h2 : x = y
    · simp [h1, h2]
    · simp [h1, h2]

theorem strLtB_trans {a b c : List Char} (h1 : strLtB a b = true) (h2 : strLtB b c = true) :
    strLtB a c = true := by
  induction a generalizing b c with
  | nil =>
    cases b with
    | nil => simp [strLtB] at h1
    | cons y ys =>
      cases c with
      | nil => simp [strLtB] at h2
      | cons z zs => simp [strLtB]
  | cons x xs ih =>
    cases b with
    | nil => simp [strLtB] at h1
    | cons y ys =>
      cases c with
      | nil => simp [strLtB] at h2
      | cons z zs =>
        rcases strLtB_cons_iff.mp h1 with hxy | ⟨hxy, hts⟩ <;>
          rcases strLtB_cons_iff.mp h2 with hyz | ⟨hyz, hts2⟩
        · exact strLtB_cons_iff.mpr (Or.inl (lt_trans hxy hyz))
        · exact strLtB_cons_iff.mpr (Or.inl (hyz ▸ hxy))
        · exact strLtB_cons_iff.mpr (Or.inl (hxy ▸ hyz))
        · exact strLtB_cons_iff.mpr (Or.inr ⟨hxy.trans hyz, ih hts hts2⟩)

theorem strLtB_trichotomy (a b : List Char) :
    strLtB a b = true ∨ a = b ∨ strLtB b a = true := by
  induction a generalizing b with
  | nil =>
    cases b with
    | nil => exact Or.inr (Or.inl rfl)
    | cons y ys => exact Or.inl (by simp [strLtB])
  | cons x xs ih =>
    cases b with
    | nil => exact Or.inr (Or.inr (by simp [strLtB]))
    | cons y ys =>
      rcases lt_trichotomy x y with h | h | h
      · exact Or.inl (strLtB_cons_iff.mpr (Or.inl h))
      · subst h
        rcases ih ys with h2 | h2 | h2
        · exact Or.inl (strLtB_cons_iff.mpr (Or.inr ⟨rfl, h2⟩))
        · exact Or.inr (Or.inl (by rw [h2]))
        · exact Or.inr (Or.inr (strLtB_cons_iff.mpr (Or.inr ⟨rfl, h2⟩)))
      · exact Or.inr (Or.inr (strLtB_cons_iff.mpr (Or.inl h)))

theorem keyLt_iff {a b : CoverageKey} :
    keyLt a b = true ↔
      a.1 < b.1 ∨
        (a.1 = b.1 ∧
          (strLtB a.2.1 b.2.1 = true ∨ (a.2.1 = b.2.1 ∧ strLtB a.2.2 b.2.2 = true))) := by
  simp [keyLt, Bool.or_eq_true, Bool.and_eq_true, decide_eq_true_eq]

theorem keyLt_trans {a b c : CoverageKey} (h1 : keyLt a b = true) (h2 : keyLt b c = true) :
    keyLt a c = true := by
  rw [keyLt_iff] at h1 h2 ⊢
  rcases h1 with h1 | ⟨e1, h1⟩ <;> rcases h2 with h2 | ⟨e2, h2⟩
  · exact Or.inl (lt_trans h1 h2)
  · exact Or.inl (e2 ▸ h1)
  · exact Or.inl (e1 ▸ h2)
  · refine Or.inr ⟨e1.trans e2, ?_⟩
    rcases h1 with h1 | ⟨f1, h1⟩ <;> rcases h2 with h2 | ⟨f2, h2⟩
    · exact Or.inl (strLtB_trans h1 h2)
    · exact Or.inl (f2 ▸ h1)
    · exact Or.inl (f1 ▸ h2)
    · exact Or.inr ⟨f1.trans f2, strLtB_trans h1 h2⟩

theorem keyLt_trichotomy (a b : CoverageKey) : keyLt a b = true ∨ a = b ∨ keyLt b a = true := by
  obtain ⟨a1, a2, a3⟩ := a
  obtain ⟨b1, b2, b3⟩ := b
  rcases lt_trichotomy a1 b1 with h | h | h
  · exact Or.inl (keyLt_iff.mpr (Or.inl h))
  · subst h
    rcases strLtB_trichotomy a2 b2 with h2 | h2 | h2
    · exact Or.inl (keyLt_iff.mpr (Or.inr ⟨rfl, Or.inl h2⟩))
    · subst h2
      rcases strLtB_trichotomy a3 b3 with h3 | h3 | h3
      · exact Or.inl (keyLt_iff.mpr (Or.inr ⟨rfl, Or.inr ⟨rfl, h3⟩⟩))
      · subst h3
        exact Or.inr (Or.inl rfl)
      · exact Or.inr (Or.inr (keyLt_iff.mpr (Or.inr ⟨rfl, Or.inr ⟨rfl, h3⟩⟩)))
    · exact Or.inr (Or.inr (keyLt_iff.mpr (Or.inr ⟨rfl, Or.inl h2⟩)))
  · exact Or.inr (Or.inr (keyLt_iff.mpr (Or.inl h)))

theorem keyLe_total (a b : CoverageKey) : keyLe a b = true ∨ keyLe b a = true := by
  unfold keyLe
  rcases keyLt_trichotomy a b with h | h | h
  · exact Or.inl (by simp [h])
  · exact Or.inl (by simp [h])
  · exact Or.inr (by simp [h])

theorem keyLe_iff {a b : CoverageKey} : keyLe a b = true ↔ keyLt a b = true ∨ a = b := by
  simp [keyLe, Bool.or_eq_true, decide_eq_true_eq]

theorem keyLe_trans {a b c : CoverageKey} (h1 : keyLe a b = true) (h2 : keyLe b c = true) :
    keyLe a c = true := by
  rw [keyLe_iff] at h1 h2 ⊢
  rcases h1 with h1 | rfl
  · rcases h2 with h2 | rfl
    · exact Or.inl (keyLt_trans h1 h2)
    · exact Or.inl h1
  · exact h2

theorem keyLt_of_keyLe_ne {a b : CoverageKey} (h : keyLe a b = true) (hne : a ≠ b) :
    keyLt a b = true := by
  rcases keyLe_iff.mp h with h' | h'
  · exact h'
  · exact absurd h' hne

theorem insertKey_perm (k : CoverageKey) (l : List CoverageKey) :
    List.Perm (insertKey k l) (k :: l) := by
  induction l with
  | nil => exact List.Perm.refl _
  | cons x xs ih =>
    unfold insertKey
    by_cases h : keyLe k x = true
    · rw [if_pos h]
    · rw [if_neg h]
      exact (List.Perm.cons x ih).trans (List.Perm.swap k x xs)

theorem insertKey_pairwise {k : CoverageKey} {l : List CoverageKey}
    (h : l.Pairwise fun a b => keyLe a b = true) :
    (insertKey k l).Pairwise fun a b => keyLe a b = true := by
  induction l with
  | nil => simp [insertKey]
  | cons x xs ih =>
    unfold insertKey
    rcases List.pairwise_cons.mp h with ⟨hx, hxs⟩
    by_cases hk : keyLe k x = true
    · rw [if_pos hk]
      refine List.Pairwise.cons ?_ h
      intro y hy
      rcases List.mem_cons.mp hy with rfl | hy
      · exact hk
      · exact keyLe_trans hk (hx y hy)
    · rw [if_neg hk]
      have hxk : keyLe x k = true := by
        rcases keyLe_total k x with h' | h'
        · exact absurd h' hk
        · exact h'
      refine List.Pairwise.cons ?_ (ih hxs)
      intro y hy
      have hy' : y = k ∨ y ∈ xs := by
        simpa using (insertKey_perm k xs).mem_iff.mp hy
      rcases hy' with rfl | hy'
      · exact hxk
      · exact hx y hy'

theorem sortKeys_perm (l : List CoverageKey) : List.Perm (sortKeys l) l := by
  induction l with
  | nil => exact List.Perm.refl _
  | cons x xs ih =>
    unfold sortKeys
    exact (insertKey_perm x (sortKeys xs)).trans (List.Perm.cons x ih)

theorem sortKeys_pairwise (l : List CoverageKey) :
    (sortKeys l).Pairwise fun a b => keyLe a b = true := by
  induction l with
  | nil => simp [sortKeys]
  | cons x xs ih =>
    unfold sortKeys
    exact insertKey_pairwise ih

theorem dictGet_isSome_iff {α β : Type} [DecidableEq α] (m : List (α × β)) (k : α) :
    (dictGet m k).isSome = true ↔ k ∈ m.map Prod.fst := by
  induction m with
  | nil => simp [dictGet]
  | cons p rest ih =>
    obtain ⟨k', v⟩ := p
    by_cases h : k' = k
    · subst h
      simp [dictGet]
    · have h2 : ¬ k = k' := fun hh => h hh.symm
      simp [dictGet, h, h2, ih]

/-- The coverage key carried by an insight. -/
def insightCoverageKey (i : StaffingInsight) : CoverageKey := (i.date, i.shift, i.role)

theorem insightCoverageKey_mkInsight (b a : List (CoverageKey × Nat)) (k : CoverageKey) :
    insightCoverageKey (mkInsight b a k) = k := by
  obtain ⟨k1, k2, k3⟩ := k
  rfl

/-- C9 (amended): the full insight sequence computed before filtering —
the list from which a report's insights are then selected — is sorted
strictly ascending by CoverageKey (date, then shift, then role) and its
keys are exactly the union of the keys of the baseline and available count
maps; a generated report's own sequence need not cover that union (a date
filter can exclude keys from the report). -/
theorem insights_sorted_cover_union (s : StaffScheduleSnapshot) (u : StaffUpdateSnapshot) :
    ((executeInsights s u).map insightCoverageKey).Pairwise (fun a b => keyLt a b = true) ∧
    ∀ k : CoverageKey,
      k ∈ (executeInsights s u).map insightCoverageKey ↔
        ((dictGet (baseline_counts s.staff_schedule) k).isSome = true ∨
          (dictGet (available_counts (apply_staff_updates s u)) k).isSome = true) := by
  have hmapgen : ∀ (b a : List (CoverageKey × Nat)) (ks : List CoverageKey),
      ks.map (fun k => insightCoverageKey (mkInsight b a k)) = ks := by
    intro b a ks
    induction ks with
    | nil => rfl
    | cons k rest ih => simp [insightCoverageKey_mkInsight, ih]
  have hmap : (executeInsights s u).map insightCoverageKey =
      sortedUnionKeys (baseline_counts s.staff_schedule)
        (available_counts (apply_staff_updates s u)) := by
    unfold executeInsights
    rw [List.map_map]
    exact hmapgen _ _ _
  constructor
  · rw [hmap]
    unfold sortedUnionKeys
    have hnd : (sortKeys ((List.map Prod.fst (baseline_counts s.staff_schedule) ++
        List.map Prod.fst (available_counts (apply_staff_updates s u))).dedup)).Nodup :=
      ((sortKeys_perm _).nodup_iff).mpr (List.nodup_dedup _)
    have hle := sortKeys_pairwise ((List.map Prod.fst (baseline_counts s.staff_schedule) ++
      List.map Prod.fst (available_counts (apply_staff_updates s u))).dedup)
    exact (hle.and hnd).imp fun hab => keyLt_of_keyLe_ne hab.1 hab.2
  · intro k
    rw [hmap]
    unfold sortedUnionKeys
    rw [(sortKeys_perm _).mem_iff, List.mem_dedup, List.mem_append,
      dictGet_isSome_iff, dictGet_isSome_iff]

/-- An Active entry on a second date. -/
def entryCarla : StaffScheduleEntry :=
  { date := 2, employee_id := 9, name := str "Carla", role := str "Nurse",
    shift := str "Night", status := str "Active" }

/-- A snapshot spanning two dates. -/
def scheduleTwoDates : StaffScheduleSnapshot :=
  { date_range := { start_date := 1, end_date := 2 },
    staff_schedule := [entryAna, entryCarla] }

/-- C9 counterexample: a report generated with date filter 1 contains only
the key (1, Morning, Cashier), while the union of the count-map keys also
contains (2, Night, Nurse) — a generated report need not cover the union. -/
theorem C9_counterexample :
    (execute scheduleTwoDates emptyUpdates (some 1) none none).map
        (fun r => r.insights.map insightCoverageKey) =
      some [((1 : Nat), str "Morning", str "Cashier")] ∧
    (dictGet (baseline_counts scheduleTwoDates.staff_schedule)
        ((2 : Nat), str "Night", str "Nurse")).isSome = true ∧
    ((2 : Nat), str "Night", str "Nurse") ∉ [((1 : Nat), str "Morning", str "Cashier")] := by
  decide

